import Mathlib

/-!
Verification of the slam-constructor fragment: numeric tolerance utilities
(`src/core/math_utils.h`), the rviz occupancy-raster export
(`src/ros/rviz_grid_viewer.h`), and the simulated 2D laser-scan generator
exercised by `test/utils/data_generation/laser_scan_generator_test.cpp`.

Machine doubles are embedded as exact rationals `ℚ` where only finite values
are involved, as real numbers `ℝ` where trigonometry is involved, and as an
extended-value type (finite / signed infinity / NaN) where the behaviour under
division by zero is at stake.
-/

/-! ## Numeric tolerance utilities (`src/core/math_utils.h`) -/

/-- Embeds `constexpr double Eps = 1e-7` from `are_equal`. -/
def Eps : ℚ := 1 / 10000000

/-- Embeds `are_equal(double a, double b)`:
`eps_scale = max(1.0, max(|a|, |b|)); return |a - b| <= Eps * eps_scale`. -/
def are_equal (a b : ℚ) : Bool :=
  decide (|a - b| ≤ Eps * max 1 (max |a| |b|))

/-- Truncation toward zero, embedding `std::trunc` on a finite value. -/
def truncZ (q : ℚ) : ℤ :=
  if 0 ≤ q then ⌊q⌋ else ⌈q⌉

/-- `std::trunc` as a map `ℚ → ℚ`. -/
def truncQ (q : ℚ) : ℚ := (truncZ q : ℚ)

/-- Embeds `is_multiple_of(double value, double factor)`:
`double r = value / factor; return are_equal(r, std::trunc(r))`. -/
def is_multiple_of (value factor : ℚ) : Bool :=
  are_equal (value / factor) (truncQ (value / factor))

/-- Embeds `less_or_equal(double a, double b)`. -/
def less_or_equal (a b : ℚ) : Bool :=
  are_equal a b || decide (a < b)

/-- Embeds `are_ordered(double a, double b, double c)`. -/
def are_ordered (a b c : ℚ) : Bool :=
  less_or_equal a b && less_or_equal b c

/-- C3: `are_equal(a, b)` returns true iff `|a - b| ≤ ε · max(1, |a|, |b|)`
with `ε = 1e-7`: the tolerance scales with the larger magnitude of the two
operands rather than being a fixed absolute epsilon. -/
theorem are_equal_iff_scale_relative (a b : ℚ) :
    are_equal a b = true ↔ |a - b| ≤ (1 / 10000000) * max 1 (max |a| |b|) := by
  simp [are_equal, Eps]

/-- C7: `less_or_equal(a, b)` holds iff `are_equal(a, b)` holds or `a < b`,
and `are_ordered(a, b, c)` holds iff both `less_or_equal(a, b)` and
`less_or_equal(b, c)` hold. -/
theorem less_or_equal_are_ordered_spec (a b c : ℚ) :
    (less_or_equal a b = true ↔ (are_equal a b = true ∨ a < b)) ∧
    (are_ordered a b c = true ↔
      (less_or_equal a b = true ∧ less_or_equal b c = true)) := by
  constructor
  · simp [less_or_equal]
  · simp [are_ordered]

/-- C8: for a nonzero factor, `is_multiple_of(value, factor)` returns true iff
the ratio `value / factor` is within the scale-relative `1e-7` tolerance of its
own truncation toward zero, the tolerance being taken relative to the magnitude
of the ratio. -/
theorem is_multiple_of_iff_near_integral (value factor : ℚ) (h : factor ≠ 0) :
    is_multiple_of value factor = true ↔
      |value / factor - truncQ (value / factor)| ≤
        (1 / 10000000) *
          max 1 (max |value / factor| |truncQ (value / factor)|) := by
  simp [is_multiple_of, are_equal, Eps]

/-- Witness for C8 at `value = 6`, `factor = 3`. -/
theorem is_multiple_of_iff_near_integral_witness :
    (3 : ℚ) ≠ 0 ∧
      (is_multiple_of 6 3 = true ↔
        |(6 : ℚ) / 3 - truncQ (6 / 3)| ≤
          (1 / 10000000) * max 1 (max |(6 : ℚ) / 3| |truncQ (6 / 3)|)) :=
  ⟨by norm_num, is_multiple_of_iff_near_integral 6 3 (by norm_num)⟩

/-! ## Extended-value model of double arithmetic for the zero-factor case

`is_multiple_of` divides by its factor without a guard; with IEEE-754 doubles a
zero factor produces an infinite or NaN ratio. The type below models a double
as a finite rational, a signed infinity, or NaN, with the exact IEEE-754
semantics of the operations `are_equal` and `is_multiple_of` perform (division,
truncation, subtraction, absolute value, `std::max`, multiplication, `<=`).
No rounding model is needed: every case reached from a zero factor is exact. -/

inductive FVal where
  | fin : ℚ → FVal
  | inf : Bool → FVal
  | nan : FVal
deriving DecidableEq

/-- IEEE `<` on extended values: false whenever NaN is involved. -/
def flt : FVal → FVal → Bool
  | FVal.nan, _ => false
  | _, FVal.nan => false
  | FVal.fin a, FVal.fin b => decide (a < b)
  | FVal.fin _, FVal.inf s => s
  | FVal.inf s, FVal.fin _ => !s
  | FVal.inf s, FVal.inf t => !s && t

/-- IEEE `<=` on extended values: false whenever NaN is involved. -/
def fle : FVal → FVal → Bool
  | FVal.nan, _ => false
  | _, FVal.nan => false
  | FVal.fin a, FVal.fin b => decide (a ≤ b)
  | FVal.fin _, FVal.inf s => s
  | FVal.inf s, FVal.fin _ => !s
  | FVal.inf s, FVal.inf t => !s || t

/-- IEEE `std::abs`. -/
def fabs : FVal → FVal
  | FVal.fin a => FVal.fin |a|
  | FVal.inf _ => FVal.inf true
  | FVal.nan => FVal.nan

/-- IEEE subtraction; `∞ - ∞` with equal signs is NaN. -/
def fsub : FVal → FVal → FVal
  | FVal.nan, _ => FVal.nan
  | _, FVal.nan => FVal.nan
  | FVal.fin a, FVal.fin b => FVal.fin (a - b)
  | FVal.inf s, FVal.fin _ => FVal.inf s
  | FVal.fin _, FVal.inf s => FVal.inf (!s)
  | FVal.inf s, FVal.inf t => if s = t then FVal.nan else FVal.inf s

/-- IEEE multiplication; `0 * ∞` is NaN. -/
def fmul : FVal → FVal → FVal
  | FVal.nan, _ => FVal.nan
  | _, FVal.nan => FVal.nan
  | FVal.fin a, FVal.fin b => FVal.fin (a * b)
  | FVal.fin a, FVal.inf s =>
      if a = 0 then FVal.nan else FVal.inf (decide (0 < a) == s)
  | FVal.inf s, FVal.fin a =>
      if a = 0 then FVal.nan else FVal.inf (s == decide (0 < a))
  | FVal.inf s, FVal.inf t => FVal.inf (s == t)

/-- `std::max(a, b)`, which C++ defines as `(a < b) ? b : a`. -/
def fmax (a b : FVal) : FVal := if flt a b then b else a

/-- IEEE division; a nonzero finite or infinite value divided by `+0` is a
signed infinity, `0 / 0` and `∞ / ∞` are NaN. -/
def fdiv : FVal → FVal → FVal
  | FVal.nan, _ => FVal.nan
  | _, FVal.nan => FVal.nan
  | FVal.fin a, FVal.fin b =>
      if b = 0 then (if a = 0 then FVal.nan else FVal.inf (decide (0 < a)))
      else FVal.fin (a / b)
  | FVal.inf s, FVal.fin b => if 0 ≤ b then FVal.inf s else FVal.inf (!s)
  | FVal.fin _, FVal.inf _ => FVal.fin 0
  | FVal.inf _, FVal.inf _ => FVal.nan

/-- IEEE `std::trunc`: infinities and NaN pass through. -/
def ftrunc : FVal → FVal
  | FVal.fin a => FVal.fin (truncQ a)
  | FVal.inf s => FVal.inf s
  | FVal.nan => FVal.nan

/-- `are_equal` replayed on extended values. -/
def are_equalF (a b : FVal) : Bool :=
  fle (fabs (fsub a b))
    (fmul (FVal.fin Eps) (fmax (FVal.fin 1) (fmax (fabs a) (fabs b))))

/-- `is_multiple_of` replayed on extended values. -/
def is_multiple_ofF (value factor : FVal) : Bool :=
  are_equalF (fdiv value factor) (ftrunc (fdiv value factor))

lemma are_equalF_nan_left (b : FVal) : are_equalF FVal.nan b = false := by
  cases b <;> simp [are_equalF, fsub, fabs, fle]

lemma are_equalF_inf_self (s : Bool) :
    are_equalF (FVal.inf s) (FVal.inf s) = false := by
  simp [are_equalF, fsub, fabs, fle]

/-- C9: `is_multiple_of(v, 0)` is false for every input `v`: the unguarded
division by the zero factor yields an infinite or NaN ratio, and `are_equal`
never holds between such a ratio and its truncation, so the function is total
and resolves the zero-factor case to false. -/
theorem is_multiple_ofF_zero_factor (v : FVal) :
    is_multiple_ofF v (FVal.fin 0) = false := by
  cases v with
  | fin q =>
      by_cases hq : q = 0
      · simp [is_multiple_ofF, fdiv, hq, ftrunc, are_equalF_nan_left]
      · simp only [is_multiple_ofF, fdiv, if_pos rfl, if_neg hq, ftrunc]
        exact are_equalF_inf_self _
  | inf s =>
      simp only [is_multiple_ofF, fdiv, le_refl, if_pos, ftrunc]
      exact are_equalF_inf_self s
  | nan => rfl

/-! ## `ge_pow` (`src/core/math_utils.h`)

The C++ loop `int ge_p = 1; while (ge_p < i) ge_p *= N; return ge_p;` is
embedded with explicit fuel: `some p` means the loop exits within that many
iterations with result `p`, `none` means it is still running. The accumulator
is a 32-bit `int` and `N` an `unsigned`, so `ge_p *= N` converts `ge_p` to
unsigned, multiplies modulo `2^32`, and converts back: the product wraps. -/

/-- The `int` result of `ge_p *= N`: the integer product reduced modulo
`2^32` into the signed range `[-2^31, 2^31)`. -/
def wrap32 (z : ℤ) : ℤ :=
  if z % 4294967296 < 2147483648 then z % 4294967296
  else z % 4294967296 - 4294967296

lemma wrap32_eq_self {z : ℤ} (h0 : 0 ≤ z) (h31 : z < 2147483648) :
    wrap32 z = z := by
  have hmod : z % 4294967296 = z := Int.emod_eq_of_lt h0 (by omega)
  rw [wrap32, hmod, if_pos h31]

/-- One C++ loop state: remaining fuel and the accumulator `ge_p`. -/
def ge_pow_iter (N : ℕ) (i : ℤ) : ℕ → ℤ → Option ℤ
  | 0, g => if g < i then none else some g
  | fuel + 1, g =>
      if g < i then ge_pow_iter N i fuel (wrap32 (g * N)) else some g

/-- Embeds `ge_pow<N>(i)` with the accumulator starting at `1`. -/
def ge_pow (N : ℕ) (i : ℤ) (fuel : ℕ) : Option ℤ :=
  ge_pow_iter N i fuel 1

lemma ge_pow_iter_of_pow (N : ℕ) (hN : 2 ≤ N) (i : ℤ) (m : ℕ)
    (him : i ≤ (N : ℤ) ^ m) (hm31 : (N : ℤ) ^ m < 2147483648) :
    ∀ fuel a, a ≤ m → m - a ≤ fuel → (∀ b < a, (N : ℤ) ^ b < i) →
      ∃ k, ge_pow_iter N i fuel ((N : ℤ) ^ a) = some ((N : ℤ) ^ k) ∧
        i ≤ (N : ℤ) ^ k ∧ ∀ b < k, (N : ℤ) ^ b < i := by
  have hN1 : (1 : ℤ) ≤ (N : ℤ) := by exact_mod_cast Nat.one_le_of_lt hN
  intro fuel
  induction fuel with
  | zero =>
      intro a ham hfuel hlow
      have ha : a = m := by omega
      have hng : ¬ ((N : ℤ) ^ a < i) := by rw [ha]; exact not_lt.mpr him
      refine ⟨a, ?_, by rw [ha]; exact him, hlow⟩
      rw [ge_pow_iter, if_neg hng]
  | succ fuel ih =>
      intro a ham hfuel hlow
      by_cases hlt : (N : ℤ) ^ a < i
      · have ham' : a < m := by
          by_contra hcon
          push_neg at hcon
          have hma : (N : ℤ) ^ m ≤ (N : ℤ) ^ a := pow_le_pow_right hN1 hcon
          linarith
        have hsm : (N : ℤ) ^ (a + 1) ≤ (N : ℤ) ^ m := pow_le_pow_right hN1 ham'
        have hwrap : wrap32 ((N : ℤ) ^ a * N) = (N : ℤ) ^ (a + 1) := by
          rw [← pow_succ]
          exact wrap32_eq_self (by positivity) (by linarith)
        have hlow' : ∀ b < a + 1, (N : ℤ) ^ b < i := by
          intro b hb
          rcases Nat.lt_succ_iff_lt_or_eq.mp hb with hb' | hb'
          · exact hlow b hb'
          · simpa [hb'] using hlt
        obtain ⟨k, hk, hki, hklow⟩ := ih (a + 1) ham' (by omega) hlow'
        refine ⟨k, ?_, hki, hklow⟩
        rw [ge_pow_iter, if_pos hlt, hwrap]
        exact hk
      · push_neg at hlt
        refine ⟨a, ?_, hlt, hlow⟩
        rw [ge_pow_iter, if_neg (not_lt.mpr hlt)]

lemma ge_pow_iter_stuck (N : ℕ) (hN : N ≤ 1) (i : ℤ) (hi : 1 < i) :
    ∀ fuel g, 0 ≤ g → g ≤ 1 → ge_pow_iter N i fuel g = none := by
  intro fuel
  induction fuel with
  | zero =>
      intro g hg0 hg1
      simp [ge_pow_iter, lt_of_le_of_lt hg1 hi]
  | succ fuel ih =>
      intro g hg0 hg1
      have hN' : (N : ℤ) ≤ 1 := by exact_mod_cast hN
      have hN0 : (0 : ℤ) ≤ (N : ℤ) := by positivity
      have hgN0 : 0 ≤ g * N := mul_nonneg hg0 hN0
      have hgN1 : g * N ≤ 1 := by nlinarith
      rw [ge_pow_iter, if_pos (lt_of_le_of_lt hg1 hi),
        wrap32_eq_self hgN0 (by omega)]
      exact ih (g * N) hgN0 hgN1

/-- The states the wrapping accumulator visits for `N = 2`, `i = 2^30 + 1`:
the exact powers of two up to `2^30`, then the wrapped values `-2^31` and
`0`, on which the loop cycles. -/
lemma ge_pow_two_wrap_stuck :
    ∀ (fuel : ℕ) (g : ℤ),
      (g = 0 ∨ g = -2147483648 ∨ ∃ k, k ≤ 30 ∧ g = 2 ^ k) →
      ge_pow_iter 2 (2 ^ 30 + 1) fuel g = none := by
  have hstate_lt : ∀ g : ℤ,
      (g = 0 ∨ g = -2147483648 ∨ ∃ k, k ≤ 30 ∧ g = 2 ^ k) →
      g < 2 ^ 30 + 1 := by
    intro g hg
    rcases hg with h | h | ⟨k, hk, h⟩
    · rw [h]; norm_num
    · rw [h]; norm_num
    · rw [h]
      have : (2 : ℤ) ^ k ≤ 2 ^ 30 := pow_le_pow_right (by norm_num) hk
      omega
  intro fuel
  induction fuel with
  | zero =>
      intro g hg
      rw [ge_pow_iter, if_pos (hstate_lt g hg)]
  | succ fuel ih =>
      intro g hg
      rw [ge_pow_iter, if_pos (hstate_lt g hg)]
      apply ih
      rcases hg with h | h | ⟨k, hk, h⟩
      · left
        rw [h]
        norm_num [wrap32]
      · left
        rw [h]
        norm_num [wrap32]
      · by_cases hk30 : k = 30
        · right; left
          rw [h, hk30]
          norm_num [wrap32]
        · right; right
          refine ⟨k + 1, by omega, ?_⟩
          rw [h]
          push_cast
          rw [show (2 : ℤ) ^ k * 2 = 2 ^ (k + 1) from (pow_succ 2 k).symm]
          apply wrap32_eq_self (by positivity)
          have : (2 : ℤ) ^ (k + 1) ≤ 2 ^ 30 :=
            pow_le_pow_right (by norm_num) (by omega)
          omega

/-- C10 counterexample: for `N = 2` and `i = 2^30 + 1` the program's loop
never terminates — the accumulator runs `1, 2, …, 2^30`, then the wrapping
`int` multiplication produces `-2^31` and then `0`, which is a fixed point
below `i` — so no amount of fuel yields a result, refuting the claimed
for-every-`i` termination and least-power value. -/
theorem ge_pow_wrap_counterexample :
    ¬ ∃ (fuel : ℕ) (p : ℤ), ge_pow 2 (2 ^ 30 + 1) fuel = some p := by
  rintro ⟨fuel, p, hp⟩
  rw [ge_pow, ge_pow_two_wrap_stuck fuel 1
    (Or.inr (Or.inr ⟨0, by omega, by norm_num⟩))] at hp
  exact Option.noConfusion hp

/-- C10 (amended): with the accumulator wrapping modulo `2^32` as the
source's `int` does, for every base `2 ≤ N` and every integer `i` that is at
most some power of `N` representable as a positive `int` (`N^m < 2^31`), the
loop terminates and returns the least power of `N` that is at least `i`
(in particular `1` whenever `i ≤ 1`); for `i` beyond every representable
power the wrapped accumulator never reaches `i` (see the counterexample), and
for `N ≤ 1` with `i > 1` the loop never makes progress, so the precondition
`N ≥ 2` remains required. -/
theorem ge_pow_spec (N : ℕ) (i : ℤ) :
    (∀ m : ℕ, 2 ≤ N → i ≤ (N : ℤ) ^ m → (N : ℤ) ^ m < 2147483648 →
      ∃ fuel p, ge_pow N i fuel = some p ∧
        (∃ k, p = (N : ℤ) ^ k) ∧ i ≤ p ∧
        (∀ j : ℕ, i ≤ (N : ℤ) ^ j → p ≤ (N : ℤ) ^ j) ∧
        (i ≤ 1 → p = 1)) ∧
    (N ≤ 1 → 1 < i → ∀ fuel, ge_pow N i fuel = none) := by
  constructor
  · intro m hN him hm31
    have hN1 : (1 : ℤ) ≤ (N : ℤ) := by exact_mod_cast Nat.one_le_of_lt hN
    obtain ⟨k, hk, hki, hklow⟩ :=
      ge_pow_iter_of_pow N hN i m him hm31 m 0 (by omega) (by omega)
        (by intro b hb; omega)
    rw [pow_zero] at hk
    refine ⟨m, (N : ℤ) ^ k, hk, ⟨k, rfl⟩, hki, ?_, ?_⟩
    · intro j hj
      have hkj : k ≤ j := by
        by_contra hcon
        push_neg at hcon
        exact absurd hj (not_le.mpr (hklow j hcon))
      exact pow_le_pow_right hN1 hkj
    · intro hi1
      have hk0 : k = 0 := by
        by_contra hcon
        have h0k : 0 < k := Nat.pos_of_ne_zero hcon
        have := hklow 0 h0k
        rw [pow_zero] at this
        omega
      simp [hk0]
  · intro hN hi fuel
    exact ge_pow_iter_stuck N hN i hi fuel 1 (by norm_num) le_rfl

/-- Witness for C10 at `N = 2`, `i = 5`, representable power `2^3 = 8`. -/
theorem ge_pow_spec_witness :
    ∃ fuel p, ge_pow 2 5 fuel = some p ∧
      (∃ k, p = (2 : ℤ) ^ k) ∧ (5 : ℤ) ≤ p ∧
      (∀ j : ℕ, (5 : ℤ) ≤ (2 : ℤ) ^ j → p ≤ (2 : ℤ) ^ j) ∧
      ((5 : ℤ) ≤ 1 → p = 1) :=
  (ge_pow_spec 2 5).1 3 (by norm_num) (by norm_num) (by norm_num)

/-! ## Occupancy-raster export (`src/ros/rviz_grid_viewer.h`)

`RvizGridViewer::on_map_update` walks `map.cells()` row by row and pushes
`cell->value() == -1 ? -1 : cell->value() * 100` (an `int`, so the scaled
value is truncated) into the message's flat data array. -/

/-- The grid-map surface consumed by the viewer: dimensions plus the
row-major `cells()` iteration, each cell reported by its `value()`. -/
structure GridMapModel where
  width : ℕ
  height : ℕ
  cells : List (List ℚ)

/-- Embeds `int cell_value = cell->value() == -1 ? -1 : cell->value() * 100`. -/
def cell_raster_value (v : ℚ) : ℤ :=
  if v = -1 then -1 else truncZ (v * 100)

/-- Embeds the double loop of `on_map_update` that fills `map_msg.data`. -/
def on_map_update_data (m : GridMapModel) : List ℤ :=
  (m.cells.map (fun row => row.map cell_raster_value)).flatten

lemma join_map_length (W : ℕ) (rows : List (List ℚ))
    (hw : ∀ row ∈ rows, row.length = W) :
    ((rows.map (fun row => row.map cell_raster_value)).flatten).length =
      rows.length * W := by
  induction rows with
  | nil => simp
  | cons r rs ih =>
      have hr : r.length = W := hw r (List.mem_cons_self r rs)
      have hrs : ∀ row ∈ rs, row.length = W := fun row hrow =>
        hw row (List.mem_cons_of_mem r hrow)
      simp [ih hrs, hr, Nat.succ_mul, Nat.add_comm]

lemma join_map_getElem (W : ℕ) (rows : List (List ℚ)) (r c : ℕ)
    (row : List ℚ) (v : ℚ)
    (hw : ∀ ro ∈ rows, ro.length = W)
    (hrow : rows[r]? = some row) (hv : row[c]? = some v) :
    ((rows.map (fun ro => ro.map cell_raster_value)).flatten)[r * W + c]? =
      some (cell_raster_value v) := by
  induction rows generalizing r with
  | nil => simp at hrow
  | cons hd tl ih =>
      have hhd : hd.length = W := hw hd (List.mem_cons_self hd tl)
      have htl : ∀ ro ∈ tl, ro.length = W := fun ro hro =>
        hw ro (List.mem_cons_of_mem hd hro)
      cases r with
      | zero =>
          have hdrow : hd = row := by simpa using hrow
          subst hdrow
          have hc : c < (hd.map cell_raster_value).length := by
            simpa using (List.getElem?_eq_some.mp hv).1
          rw [List.map_cons, List.flatten_cons, Nat.zero_mul, Nat.zero_add,
            List.getElem?_append_left hc]
          simpa using congrArg (Option.map cell_raster_value) hv
      | succ r' =>
          have hrows' : tl[r']? = some row := by simpa using hrow
          have hlen : (hd.map cell_raster_value).length = W := by simp [hhd]
          rw [List.map_cons, List.flatten_cons, List.getElem?_append_right
            (by rw [hlen, Nat.succ_mul]; omega)]
          have harith : (r' + 1) * W + c - (hd.map cell_raster_value).length =
              r' * W + c := by
            rw [hlen, Nat.succ_mul]; omega
          rw [harith]
          exact ih r' htl hrows'

/-- C6: for a well-formed map (`height` rows of `width` cells), the viewer's
`on_map_update` exports all `width * height` cell values in row-major order:
the flat entry at index `r * width + c` is the sentinel `-1` when the cell's
`value()` is `-1` (unknown) and the value scaled by `100` (an integer in
`0`–`100` whenever `value()` lies in `[0, 1]`) otherwise. -/
theorem on_map_update_exports_raster (m : GridMapModel)
    (hh : m.cells.length = m.height)
    (hw : ∀ row ∈ m.cells, row.length = m.width) :
    (on_map_update_data m).length = m.height * m.width ∧
    (∀ (r c : ℕ) (row : List ℚ) (v : ℚ),
      m.cells[r]? = some row → row[c]? = some v →
      (on_map_update_data m)[r * m.width + c]? =
        some (if v = -1 then -1 else truncZ (v * 100))) ∧
    (∀ v : ℚ, 0 ≤ v → v ≤ 1 →
      0 ≤ cell_raster_value v ∧ cell_raster_value v ≤ 100) := by
  refine ⟨?_, ?_, ?_⟩
  · rw [on_map_update_data, join_map_length m.width m.cells hw, hh]
  · intro r c row v hrow hv
    simpa [cell_raster_value] using
      join_map_getElem m.width m.cells r c row v hw hrow hv
  · intro v hv0 hv1
    have hne : v ≠ -1 := by intro hEq; rw [hEq] at hv0; norm_num at hv0
    have h0 : (0 : ℚ) ≤ v * 100 := by positivity
    have h1 : v * 100 ≤ 100 := by nlinarith
    constructor
    · simp only [cell_raster_value, if_neg hne, truncZ, if_pos h0]
      exact Int.le_floor.mpr (by exact_mod_cast h0)
    · simp only [cell_raster_value, if_neg hne, truncZ, if_pos h0]
      have := Int.floor_le_floor (α := ℚ) h1
      simpa using this

/-- Witness for C6 on a concrete `2 × 2` map holding values
`[[-1, 1/2], [0, 1]]`: the export has four entries and the entry at row 1,
column 0 is `0`. -/
theorem on_map_update_exports_raster_witness :
    (on_map_update_data ⟨2, 2, [[-1, 1/2], [0, 1]]⟩).length = 2 * 2 ∧
    (on_map_update_data ⟨2, 2, [[-1, 1/2], [0, 1]]⟩)[1 * 2 + 0]? =
      some (if (0 : ℚ) = -1 then -1 else truncZ (0 * 100)) := by
  have h := on_map_update_exports_raster ⟨2, 2, [[-1, 1/2], [0, 1]]⟩
    (by simp) (by intro row hrow; simp at hrow; rcases hrow with h1 | h1 <;>
      simp [h1])
  exact ⟨h.1, h.2.1 1 0 [0, 1] 0 (by simp) (by simp)⟩

/-! ## Laser scan generator

The generator implementation (`src/utils/data_generation/laser_scan_generator.h`
together with the grid-map classes it queries) is absent from the sources; only
its test driver `laser_scan_generator_test.cpp` is available. The definitions
below are modelled from the spec, pinned to the observable behaviour the test
driver asserts. -/

/-- Embeds `deg2rad(double angle_deg)` from `src/core/math_utils.h`:
`angle_deg * M_PI / 180`. -/
noncomputable def deg2rad (angle_deg : ℝ) : ℝ := angle_deg * Real.pi / 180

/-- Modelled from the spec: `RobotPose {x, y, theta}` (§3). -/
structure RobotPose where
  x : ℝ
  y : ℝ
  theta : ℝ

/-- Modelled from the spec: `LaserScannerParams {max_range; angle_step;
max_angle}` (§3). -/
structure LaserScannerParams where
  max_range : ℝ
  angle_step : ℝ
  max_angle : ℝ

/-- Modelled from the spec: `ScanPoint {range, angle}` (§3); the constant
`is_occupied = true` flag carried by emitted hits is omitted. -/
structure ScanPoint where
  range : ℝ
  angle : ℝ

/-- Modelled from the spec: `GridMap::world_to_cell` (§4.4) — the enclosing
cell of a world point, `⌊x / scale⌋` per axis. -/
noncomputable def world_to_cell (s x y : ℝ) : ℤ × ℤ := (⌊x / s⌋, ⌊y / s⌋)

/-- Modelled from the spec: the number of configured beams. The fan starts at
`-max_angle` and advances by `angle_step` while strictly below `max_angle`
(the 4-beam fixtures of the test driver show the `+max_angle` end is not
emitted when the fan divides evenly). -/
noncomputable def beamCount (p : LaserScannerParams) : ℕ :=
  ⌈2 * p.max_angle / p.angle_step⌉₊

/-- Modelled from the spec: the `k`-th configured beam's angle relative to the
sensor heading (§4.5 step 1). -/
def beam_angle (p : LaserScannerParams) (k : ℕ) : ℝ :=
  -p.max_angle + k * p.angle_step

/-- Modelled from the spec: the ray parameters (travel distances) at which the
ray of absolute direction `φ` sits inside an occupied cell, within range
(§4.5 steps 2–4). -/
def hitSet (s : ℝ) (occ : ℤ × ℤ → Bool) (pose : RobotPose) (maxR φ : ℝ) :
    Set ℝ :=
  {t | 0 ≤ t ∧ t ≤ maxR ∧
    occ (world_to_cell s (pose.x + t * Real.cos φ)
      (pose.y + t * Real.sin φ)) = true}

/-- Modelled from the spec: the recorded range of a hit — the distance from
the origin to the ray's entry point into the first occupied cell, i.e. the
infimum of the occupied ray parameters (§4.5 step 3). -/
noncomputable def hitRange (s : ℝ) (occ : ℤ × ℤ → Bool) (pose : RobotPose)
    (maxR φ : ℝ) : ℝ :=
  sInf (hitSet s occ pose maxR φ)

open Classical in
/-- Modelled from the spec: what one beam at relative angle `β` contributes —
a scan point iff the ray registers a hit, nothing on a miss (§4.5 steps 3–4).
-/
noncomputable def beam_emission (s : ℝ) (occ : ℤ × ℤ → Bool)
    (pose : RobotPose) (maxR β : ℝ) : Option ScanPoint :=
  if (hitSet s occ pose maxR (pose.theta + β)).Nonempty
  then some ⟨hitRange s occ pose maxR (pose.theta + β), β⟩
  else none

/-- Modelled from the spec: `generate_2D_laser_scan` (§4.5) — per configured
beam, emit a scan point iff the ray registers a hit; misses produce nothing,
so the output is sparse and ordered by increasing beam angle. -/
noncomputable def generate_2D_laser_scan (s : ℝ) (occ : ℤ × ℤ → Bool)
    (pose : RobotPose) (p : LaserScannerParams) : List ScanPoint :=
  (List.range (beamCount p)).filterMap fun k =>
    beam_emission s occ pose p.max_range (beam_angle p k)

lemma filterMap_eq_map_of_eq_some {α β : Type} (l : List α)
    (f : α → Option β) (g : α → β) (h : ∀ a ∈ l, f a = some (g a)) :
    l.filterMap f = l.map g := by
  induction l with
  | nil => rfl
  | cons hd tl ih =>
      rw [List.filterMap_cons, h hd (List.mem_cons_self hd tl), List.map_cons,
        ih (fun a ha => h a (List.mem_cons_of_mem hd ha))]

lemma hitSet_zero_mem (s : ℝ) (occ : ℤ × ℤ → Bool) (pose : RobotPose)
    (maxR φ : ℝ) (hR : 0 ≤ maxR)
    (h : occ (world_to_cell s pose.x pose.y) = true) :
    (0 : ℝ) ∈ hitSet s occ pose maxR φ := by
  refine ⟨le_refl 0, hR, ?_⟩
  simpa using h

/-- C4: whenever the sensor pose sits inside an occupied cell, every configured
beam of any scan configuration registers an immediate hit with `range = 0`:
the generated scan is one zero-range point per configured beam angle. -/
theorem scan_inside_obstacle (s : ℝ) (occ : ℤ × ℤ → Bool) (pose : RobotPose)
    (p : LaserScannerParams) (hR : 0 ≤ p.max_range)
    (h : occ (world_to_cell s pose.x pose.y) = true) :
    generate_2D_laser_scan s occ pose p =
      (List.range (beamCount p)).map (fun k => ⟨0, beam_angle p k⟩) := by
  unfold generate_2D_laser_scan
  apply filterMap_eq_map_of_eq_some
  intro k _
  have h0 : (0 : ℝ) ∈ hitSet s occ pose p.max_range
      (pose.theta + beam_angle p k) :=
    hitSet_zero_mem s occ pose p.max_range _ hR h
  rw [beam_emission, if_pos ⟨0, h0⟩]
  have hinf : hitRange s occ pose p.max_range (pose.theta + beam_angle p k)
      = 0 := by
    refine le_antisymm (csInf_le ⟨0, fun t ht => ht.1⟩ h0)
      (le_csInf ⟨0, h0⟩ fun t ht => ht.1)
  rw [hinf]

/-- Witness for C4: a fully occupied map, the origin pose, and a small
two-beam configuration. -/
theorem scan_inside_obstacle_witness :
    generate_2D_laser_scan 1 (fun _ => true) ⟨0, 0, 0⟩ ⟨1, 1, 1⟩ =
      (List.range (beamCount ⟨1, 1, 1⟩)).map
        (fun k => ⟨0, beam_angle ⟨1, 1, 1⟩ k⟩) :=
  scan_inside_obstacle 1 (fun _ => true) ⟨0, 0, 0⟩ ⟨1, 1, 1⟩ (by norm_num) rfl

/-- A flat wall: every cell whose x-index is at least `W` is occupied, the
wall face being the world line `x = W * scale` with inward normal along the
x-axis. -/
def wallOcc (W : ℤ) : ℤ × ℤ → Bool := fun c => decide (W ≤ c.1)

lemma hitSet_wall (W : ℤ) (s : ℝ) (hs : 0 < s) (pose : RobotPose)
    (maxR φ : ℝ) (hx : pose.x < W * s) (hcos : 0 < Real.cos φ) :
    hitSet s (wallOcc W) pose maxR φ =
      Set.Icc (((W : ℝ) * s - pose.x) / Real.cos φ) maxR := by
  have ha : 0 < ((W : ℝ) * s - pose.x) / Real.cos φ :=
    div_pos (by linarith) hcos
  ext t
  simp only [hitSet, wallOcc, world_to_cell, Set.mem_setOf_eq,
    decide_eq_true_eq, Set.mem_Icc]
  constructor
  · rintro ⟨_ht0, htR, hocc⟩
    refine ⟨?_, htR⟩
    have h1 : (W : ℝ) ≤ (pose.x + t * Real.cos φ) / s := by
      exact_mod_cast Int.le_floor.mp hocc
    have h2 : (W : ℝ) * s ≤ pose.x + t * Real.cos φ :=
      (le_div_iff hs).mp h1
    exact (div_le_iff hcos).mpr (by linarith)
  · rintro ⟨hta, htR⟩
    have h2 : (W : ℝ) * s - pose.x ≤ t * Real.cos φ :=
      (div_le_iff hcos).mp hta
    refine ⟨le_trans ha.le hta, htR, ?_⟩
    rw [Int.le_floor]
    exact (le_div_iff hs).mpr (by linarith)

/-- C5: a beam cast against a flat wall at oblique incidence records exactly
the wall's perpendicular distance divided by the cosine of the incidence
angle: the scan contains the point
`⟨(W·s − x) / cos φ, β⟩` for the striking beam `β`, and that range times
`cos φ` recovers the perpendicular distance `W·s − x`. -/
theorem scan_wall_oblique_incidence (W : ℤ) (s : ℝ) (pose : RobotPose)
    (p : LaserScannerParams) (k : ℕ) (hs : 0 < s)
    (hk : k < beamCount p) (hx : pose.x < W * s)
    (hcos : 0 < Real.cos (pose.theta + beam_angle p k))
    (hR : ((W : ℝ) * s - pose.x) / Real.cos (pose.theta + beam_angle p k) ≤
      p.max_range) :
    ScanPoint.mk
        (((W : ℝ) * s - pose.x) / Real.cos (pose.theta + beam_angle p k))
        (beam_angle p k) ∈
      generate_2D_laser_scan s (wallOcc W) pose p ∧
    ((W : ℝ) * s - pose.x) / Real.cos (pose.theta + beam_angle p k) *
        Real.cos (pose.theta + beam_angle p k) = (W : ℝ) * s - pose.x := by
  set φ := pose.theta + beam_angle p k with hφ
  set a := ((W : ℝ) * s - pose.x) / Real.cos φ with hadef
  have hset : hitSet s (wallOcc W) pose p.max_range φ = Set.Icc a p.max_range :=
    hitSet_wall W s hs pose p.max_range φ hx hcos
  have hne : (hitSet s (wallOcc W) pose p.max_range φ).Nonempty := by
    rw [hset]
    exact ⟨a, le_refl a, hR⟩
  have hinf : hitRange s (wallOcc W) pose p.max_range φ = a := by
    rw [hitRange, hset]
    exact csInf_Icc hR
  constructor
  · apply List.mem_filterMap.mpr
    refine ⟨k, List.mem_range.mpr hk, ?_⟩
    rw [beam_emission, ← hφ, if_pos hne, hinf]
  · exact div_mul_cancel₀ _ (ne_of_gt hcos)

/-- Witness for C5: wall at `x = 2`, unit scale, origin pose facing the wall;
beam `k = 1` of a two-beam fan points straight at it (`φ = 0`). -/
theorem scan_wall_oblique_incidence_witness :
    ScanPoint.mk
        (((2 : ℤ) * (1 : ℝ) - RobotPose.x ⟨0, 0, 0⟩) /
          Real.cos (RobotPose.theta ⟨0, 0, 0⟩ + beam_angle ⟨5, 1, 1⟩ 1))
        (beam_angle ⟨5, 1, 1⟩ 1) ∈
      generate_2D_laser_scan 1 (wallOcc 2) ⟨0, 0, 0⟩ ⟨5, 1, 1⟩ ∧
    ((2 : ℤ) * (1 : ℝ) - RobotPose.x ⟨0, 0, 0⟩) /
        Real.cos (RobotPose.theta ⟨0, 0, 0⟩ + beam_angle ⟨5, 1, 1⟩ 1) *
        Real.cos (RobotPose.theta ⟨0, 0, 0⟩ + beam_angle ⟨5, 1, 1⟩ 1) =
      (2 : ℤ) * (1 : ℝ) - RobotPose.x ⟨0, 0, 0⟩ := by
  have hang : RobotPose.theta ⟨0, 0, 0⟩ + beam_angle ⟨5, 1, 1⟩ 1 = 0 := by
    simp [beam_angle]
  refine scan_wall_oblique_incidence 2 1 ⟨0, 0, 0⟩ ⟨5, 1, 1⟩ 1 (by norm_num)
    ?_ (by norm_num) ?_ ?_
  · show 1 < beamCount ⟨5, 1, 1⟩
    rw [beamCount]
    norm_num
  · rw [hang, Real.cos_zero]
    norm_num
  · rw [hang, Real.cos_zero]
    norm_num

lemma beam_emission_of_hitSet (s : ℝ) (occ : ℤ × ℤ → Bool) (pose : RobotPose)
    (maxR β : ℝ) (S : Set ℝ) (r : ℝ)
    (hS : hitSet s occ pose maxR (pose.theta + β) = S)
    (hne : S.Nonempty) (hinf : sInf S = r) :
    beam_emission s occ pose maxR β = some ⟨r, β⟩ := by
  rw [beam_emission, hitRange, hS, if_pos hne, hinf]

lemma beam_emission_of_miss (s : ℝ) (occ : ℤ × ℤ → Bool) (pose : RobotPose)
    (maxR β : ℝ) (hS : hitSet s occ pose maxR (pose.theta + β) = ∅) :
    beam_emission s occ pose maxR β = none := by
  rw [beam_emission, hS]
  simp

/-! ## The cecum-corridor fixture

The test driver patches a `100 × 100`, scale-1 `UnboundedPlainGridMap` with the
3×3 text raster `"+-+" / "| |" / "| |"` scaled ×10 at the map's top-left cell
`(0, 0)`, extending toward negative `y` (per the driver's constants
`Cecum_Free_X_Start = 1`, `Cecum_Free_Y_Start = -1` "wrt top-left" and its
debug printer). Occupied cells are the top row `y ∈ [-9, 0]` and the side
columns `x ∈ [0, 9]` and `x ∈ [20, 29]` of the patched block
`x ∈ [0, 29] × y ∈ [-29, 0]`; everything else is unknown, hence traversable. -/
def cecumOccupied : ℤ × ℤ → Bool := fun c =>
  decide (0 ≤ c.1 ∧ c.1 < 30 ∧ -29 ≤ c.2 ∧ c.2 ≤ 0 ∧
    (c.1 < 10 ∨ 20 ≤ c.1 ∨ -9 ≤ c.2))

/-- The `leftOfCecumEntranceFacingRight4beams` pose: the fixture starts at the
middle of cell `(0, 0)` (`(0.5, 0.5)`) and adds the delta `(10, -29, 0°)`. -/
noncomputable def entrancePose : RobotPose := ⟨21 / 2, -57 / 2, 0⟩

/-- The fixture's default scanner: `LaserScannerParams{150, deg2rad(90),
deg2rad(180)}`. -/
noncomputable def fourBeamParams : LaserScannerParams :=
  ⟨150, deg2rad 90, deg2rad 180⟩

lemma fourBeam_count : beamCount fourBeamParams = 4 := by
  have h : 2 * deg2rad 180 / deg2rad 90 = (4 : ℝ) := by
    rw [deg2rad, deg2rad]
    rw [div_eq_iff (by positivity : (90 : ℝ) * Real.pi / 180 ≠ 0)]
    ring
  rw [beamCount]
  show ⌈2 * deg2rad 180 / deg2rad 90⌉₊ = 4
  rw [h]
  norm_num

lemma cecum_hitSet_neg_pi :
    hitSet 1 cecumOccupied entrancePose 150 (-Real.pi) =
      Set.Ioc (1/2 : ℝ) (21/2) := by
  ext t
  simp only [hitSet, cecumOccupied, world_to_cell, entrancePose,
    Set.mem_setOf_eq, decide_eq_true_eq, Set.mem_Ioc, Real.cos_neg,
    Real.cos_pi, Real.sin_neg, Real.sin_pi, neg_zero, mul_zero, add_zero,
    mul_neg_one, div_one, ← sub_eq_add_neg]
  have hy : ⌊(-57/2 : ℝ)⌋ = -29 := by norm_num
  rw [hy]
  constructor
  · rintro ⟨ht0, _ht150, hx0, _hx30, _, _, hdisj⟩
    have h1 : (0 : ℝ) ≤ 21/2 - t := by exact_mod_cast Int.le_floor.mp hx0
    rcases hdisj with h | h | h
    · have h2 : (21/2 : ℝ) - t < 10 := by exact_mod_cast Int.floor_lt.mp h
      constructor <;> linarith
    · have h2 : (20 : ℝ) ≤ 21/2 - t := by exact_mod_cast Int.le_floor.mp h
      linarith
    · omega
  · rintro ⟨h12, h212⟩
    refine ⟨by linarith, by linarith, ?_, ?_, by norm_num, by norm_num,
      Or.inl ?_⟩
    · exact Int.le_floor.mpr (by push_cast; linarith)
    · exact Int.floor_lt.mpr (by push_cast; linarith)
    · exact Int.floor_lt.mpr (by push_cast; linarith)

lemma cecum_hitSet_neg_pi_div_two :
    hitSet 1 cecumOccupied entrancePose 150 (-(Real.pi / 2)) = ∅ := by
  rw [Set.eq_empty_iff_forall_not_mem]
  intro t ht
  simp only [hitSet, cecumOccupied, world_to_cell, entrancePose,
    Set.mem_setOf_eq, decide_eq_true_eq, Real.cos_neg, Real.cos_pi_div_two,
    Real.sin_neg, Real.sin_pi_div_two, mul_zero, add_zero, mul_neg_one,
    div_one, ← sub_eq_add_neg] at ht
  have hx : ⌊(21/2 : ℝ)⌋ = 10 := by norm_num
  rw [hx] at ht
  obtain ⟨ht0, _, _, _, _, _, hdisj⟩ := ht
  rcases hdisj with h | h | h
  · omega
  · omega
  · have h1 : (-9 : ℝ) ≤ -57/2 - t := by exact_mod_cast Int.le_floor.mp h
    linarith

lemma cecum_hitSet_zero :
    hitSet 1 cecumOccupied entrancePose 150 0 =
      Set.Ico (19/2 : ℝ) (39/2) := by
  ext t
  simp only [hitSet, cecumOccupied, world_to_cell, entrancePose,
    Set.mem_setOf_eq, decide_eq_true_eq, Set.mem_Ico, Real.cos_zero,
    Real.sin_zero, mul_zero, add_zero, mul_one, div_one]
  have hy : ⌊(-57/2 : ℝ)⌋ = -29 := by norm_num
  rw [hy]
  constructor
  · rintro ⟨ht0, _ht150, _hx0, hx30, _, _, hdisj⟩
    have h1 : (21/2 : ℝ) + t < 30 := by exact_mod_cast Int.floor_lt.mp hx30
    rcases hdisj with h | h | h
    · have h2 : (21/2 : ℝ) + t < 10 := by exact_mod_cast Int.floor_lt.mp h
      linarith
    · have h2 : (20 : ℝ) ≤ 21/2 + t := by exact_mod_cast Int.le_floor.mp h
      constructor <;> linarith
    · omega
  · rintro ⟨h192, h392⟩
    refine ⟨by linarith, by linarith, ?_, ?_, by norm_num, by norm_num,
      Or.inr (Or.inl ?_)⟩
    · exact Int.le_floor.mpr (by push_cast; linarith)
    · exact Int.floor_lt.mpr (by push_cast; linarith)
    · exact Int.le_floor.mpr (by push_cast; linarith)

lemma cecum_hitSet_pi_div_two :
    hitSet 1 cecumOccupied entrancePose 150 (Real.pi / 2) =
      Set.Ico (39/2 : ℝ) (59/2) := by
  ext t
  simp only [hitSet, cecumOccupied, world_to_cell, entrancePose,
    Set.mem_setOf_eq, decide_eq_true_eq, Set.mem_Ico, Real.cos_pi_div_two,
    Real.sin_pi_div_two, mul_zero, add_zero, mul_one, div_one]
  have hx : ⌊(21/2 : ℝ)⌋ = 10 := by norm_num
  rw [hx]
  constructor
  · rintro ⟨ht0, _ht150, _, _, hy29, hy0, hdisj⟩
    rcases hdisj with h | h | h
    · omega
    · omega
    · have h1 : (-9 : ℝ) ≤ -57/2 + t := by exact_mod_cast Int.le_floor.mp h
      have h2 : ⌊(-57/2 : ℝ) + t⌋ < 1 := by omega
      have h3 : (-57/2 : ℝ) + t < 1 := by exact_mod_cast Int.floor_lt.mp h2
      constructor <;> linarith
  · rintro ⟨h392, h592⟩
    refine ⟨by linarith, by linarith, by norm_num, by norm_num, ?_, ?_,
      Or.inr (Or.inr ?_)⟩
    · exact Int.le_floor.mpr (by push_cast; linarith)
    · have h2 : ⌊(-57/2 : ℝ) + t⌋ < 1 :=
        Int.floor_lt.mpr (by push_cast; linarith)
      omega
    · exact Int.le_floor.mpr (by push_cast; linarith)

lemma deg2rad_inj {a b : ℝ} : deg2rad a = deg2rad b ↔ a = b := by
  rw [deg2rad, deg2rad]
  constructor
  · intro h
    have h180 := congrArg (fun z : ℝ => z * 180) h
    field_simp at h180
    rcases h180 with h' | h'
    · exact h'
    · exact absurd h' Real.pi_ne_zero
  · intro h
    rw [h]

lemma cecum_ang0 :
    entrancePose.theta + beam_angle fourBeamParams 0 = -Real.pi := by
  show (0 : ℝ) + (-(deg2rad 180) + ((0 : ℕ) : ℝ) * deg2rad 90) = -Real.pi
  simp only [deg2rad]
  push_cast
  ring

lemma cecum_ang1 :
    entrancePose.theta + beam_angle fourBeamParams 1 = -(Real.pi / 2) := by
  show (0 : ℝ) + (-(deg2rad 180) + ((1 : ℕ) : ℝ) * deg2rad 90) =
    -(Real.pi / 2)
  simp only [deg2rad]
  push_cast
  ring

lemma cecum_ang2 :
    entrancePose.theta + beam_angle fourBeamParams 2 = 0 := by
  show (0 : ℝ) + (-(deg2rad 180) + ((2 : ℕ) : ℝ) * deg2rad 90) = 0
  simp only [deg2rad]
  push_cast
  ring

lemma cecum_ang3 :
    entrancePose.theta + beam_angle fourBeamParams 3 = Real.pi / 2 := by
  show (0 : ℝ) + (-(deg2rad 180) + ((3 : ℕ) : ℝ) * deg2rad 90) = Real.pi / 2
  simp only [deg2rad]
  push_cast
  ring

lemma cecum_beam0_angle : beam_angle fourBeamParams 0 = deg2rad (-180) := by
  show -(deg2rad 180) + ((0 : ℕ) : ℝ) * deg2rad 90 = deg2rad (-180)
  simp only [deg2rad]
  push_cast
  ring

lemma cecum_beam2_angle : beam_angle fourBeamParams 2 = deg2rad 0 := by
  show -(deg2rad 180) + ((2 : ℕ) : ℝ) * deg2rad 90 = deg2rad 0
  simp only [deg2rad]
  push_cast
  ring

lemma cecum_beam3_angle : beam_angle fourBeamParams 3 = deg2rad 90 := by
  show -(deg2rad 180) + ((3 : ℕ) : ℝ) * deg2rad 90 = deg2rad 90
  simp only [deg2rad]
  push_cast
  ring

lemma cecum_entrance_scan_eq :
    generate_2D_laser_scan 1 cecumOccupied entrancePose fourBeamParams =
      [⟨1/2, deg2rad (-180)⟩, ⟨19/2, deg2rad 0⟩, ⟨39/2, deg2rad 90⟩] := by
  have hf0 : beam_emission 1 cecumOccupied entrancePose
      fourBeamParams.max_range (beam_angle fourBeamParams 0) =
      some ⟨1/2, deg2rad (-180)⟩ := by
    rw [← cecum_beam0_angle]
    apply beam_emission_of_hitSet _ _ _ _ _ (Set.Ioc (1/2 : ℝ) (21/2))
    · rw [cecum_ang0]
      exact cecum_hitSet_neg_pi
    · exact ⟨1, by constructor <;> norm_num⟩
    · exact csInf_Ioc (by norm_num)
  have hf1 : beam_emission 1 cecumOccupied entrancePose
      fourBeamParams.max_range (beam_angle fourBeamParams 1) = none := by
    apply beam_emission_of_miss
    rw [cecum_ang1]
    exact cecum_hitSet_neg_pi_div_two
  have hf2 : beam_emission 1 cecumOccupied entrancePose
      fourBeamParams.max_range (beam_angle fourBeamParams 2) =
      some ⟨19/2, deg2rad 0⟩ := by
    rw [← cecum_beam2_angle]
    apply beam_emission_of_hitSet _ _ _ _ _ (Set.Ico (19/2 : ℝ) (39/2))
    · rw [cecum_ang2]
      exact cecum_hitSet_zero
    · exact ⟨19/2, by constructor <;> norm_num⟩
    · exact csInf_Ico (by norm_num)
  have hf3 : beam_emission 1 cecumOccupied entrancePose
      fourBeamParams.max_range (beam_angle fourBeamParams 3) =
      some ⟨39/2, deg2rad 90⟩ := by
    rw [← cecum_beam3_angle]
    apply beam_emission_of_hitSet _ _ _ _ _ (Set.Ico (39/2 : ℝ) (59/2))
    · rw [cecum_ang3]
      exact cecum_hitSet_pi_div_two
    · exact ⟨39/2, by constructor <;> norm_num⟩
    · exact csInf_Ico (by norm_num)
  rw [generate_2D_laser_scan, fourBeam_count]
  rw [show List.range 4 = [0, 1, 2, 3] from rfl]
  simp only [List.filterMap_cons, List.filterMap_nil, hf0, hf1, hf2, hf3]

/-- C2 counterexample: on the fixture the modelled generator's recorded
entry-point ranges are `(1/2, 19/2, 39/2)` — none of them equal to the
claimed exact values `(1, 10, 20)` (which the reference test only asserts
within a half-cell tolerance). -/
theorem cecum_entrance_ranges_counterexample :
    (generate_2D_laser_scan 1 cecumOccupied entrancePose
        fourBeamParams).map ScanPoint.range = [1/2, 19/2, 39/2] ∧
    ((1 : ℝ)/2 ≠ 1 ∧ (19 : ℝ)/2 ≠ 10 ∧ (39 : ℝ)/2 ≠ 20) := by
  rw [cecum_entrance_scan_eq]
  refine ⟨rfl, by norm_num, by norm_num, by norm_num⟩

/-- C2 (amended): on the ×10 cecum fixture, the sensor placed one cell left
of the free column at the corridor's open end facing right (`θ = 0°`, 4 beams
at `{-180°, -90°, 0°, 90°}`, `max_range = 150`) yields exactly three scan
points — at relative angles `-180°`, `0°` and `90°`, with no point for the
`-90°` beam — whose entry-point ranges `(1/2, 19/2, 39/2)` agree with the
reference values `(1, 10, 20)` within the fixture's half-cell range
tolerance. -/
theorem cecum_entrance_scan_4beams :
    generate_2D_laser_scan 1 cecumOccupied entrancePose fourBeamParams =
      [⟨1/2, deg2rad (-180)⟩, ⟨19/2, deg2rad 0⟩, ⟨39/2, deg2rad 90⟩] ∧
    (∀ sp ∈ generate_2D_laser_scan 1 cecumOccupied entrancePose fourBeamParams,
      sp.angle ≠ deg2rad (-90)) ∧
    |(1/2 : ℝ) - 1| ≤ 1/2 ∧ |(19/2 : ℝ) - 10| ≤ 1/2 ∧
    |(39/2 : ℝ) - 20| ≤ 1/2 := by
  refine ⟨cecum_entrance_scan_eq, ?_, by norm_num [abs_le],
    by norm_num [abs_le], by norm_num [abs_le]⟩
  intro sp hsp
  rw [cecum_entrance_scan_eq] at hsp
  simp only [List.mem_cons, List.not_mem_nil, or_false] at hsp
  have hne : ∀ d : ℝ, d ≠ -90 → deg2rad d ≠ deg2rad (-90) := by
    intro d hd hcon
    exact hd (deg2rad_inj.mp hcon)
  rcases hsp with h | h | h <;> rw [h] <;>
    [exact hne (-180) (by norm_num); exact hne 0 (by norm_num);
      exact hne 90 (by norm_num)]

/-! ## The 8-beam, 270°-FoV cecum test (`cecumCenterFacingDown8beams240FoW`)

The test constructs `LaserScannerParams{15, deg2rad(270 / 8), deg2rad(270 / 2)}`
and `constexpr double A_Step = 270 / 8;` — both `270 / 8` are C++ *integer*
divisions, so the configured step is 33°, not 33.75°. Its expected scan holds
eight points built from `left_w = (10 * 1 / 2 + 1) * 1` and
`right_w = ((10 * 1 + 1) / 2) * 1` (integer divisions again). -/
def cecumStepDegInt : ℤ := 270 / 8

def cecumHalfFovDegInt : ℤ := 270 / 2

/-- The scanner the 8-beam test builds. -/
noncomputable def cecum8Params : LaserScannerParams :=
  ⟨15, deg2rad ((cecumStepDegInt : ℤ) : ℝ),
    deg2rad ((cecumHalfFovDegInt : ℤ) : ℝ)⟩

/-- `constexpr double A_Step = 270 / 8;` as the double it becomes. -/
noncomputable def cecumAStep : ℝ := ((270 / 8 : ℤ) : ℝ)

/-- `left_w = (Patch_Scale * Cecum_Free_W / 2 + 1) * map.scale()`. -/
noncomputable def cecumLeftW : ℝ := ((10 * 1 / 2 + 1 : ℤ) : ℝ) * 1

/-- `right_w = ((Patch_Scale * Cecum_Free_W + 1) / 2) * map.scale()`. -/
noncomputable def cecumRightW : ℝ := (((10 * 1 + 1) / 2 : ℤ) : ℝ) * 1

/-- The `Expected_SPs` list of the 8-beam test, entry by entry. -/
noncomputable def cecum8ExpectedSPs : List ScanPoint :=
  [⟨cecumLeftW / Real.cos (deg2rad (45 - 0 * cecumAStep)),
      deg2rad (-135 + 0 * cecumAStep)⟩,
    ⟨cecumLeftW / Real.cos (deg2rad (45 - 1 * cecumAStep)),
      deg2rad (-135 + 1 * cecumAStep)⟩,
    ⟨cecumLeftW / Real.cos (deg2rad (45 - 2 * cecumAStep)),
      deg2rad (-135 + 2 * cecumAStep)⟩,
    ⟨cecumLeftW / Real.cos (deg2rad (45 - 3 * cecumAStep)),
      deg2rad (-135 + 3 * cecumAStep)⟩,
    ⟨cecumRightW / Real.cos (deg2rad (45 - 3 * cecumAStep)),
      deg2rad (-135 + 5 * cecumAStep)⟩,
    ⟨cecumRightW / Real.cos (deg2rad (45 - 2 * cecumAStep)),
      deg2rad (-135 + 6 * cecumAStep)⟩,
    ⟨cecumRightW / Real.cos (deg2rad (45 - 1 * cecumAStep)),
      deg2rad (-135 + 7 * cecumAStep)⟩,
    ⟨cecumRightW / Real.cos (deg2rad (45 - 0 * cecumAStep)),
      deg2rad (-135 + 8 * cecumAStep)⟩]

lemma cecumAStep_eq : cecumAStep = 33 := by
  rw [cecumAStep]
  norm_num

lemma cecum8_beamCount : beamCount cecum8Params = 9 := by
  have hstep : ((cecumStepDegInt : ℤ) : ℝ) = 33 := by
    norm_num [cecumStepDegInt]
  have hfov : ((cecumHalfFovDegInt : ℤ) : ℝ) = 135 := by
    norm_num [cecumHalfFovDegInt]
  rw [beamCount]
  show ⌈2 * deg2rad ((cecumHalfFovDegInt : ℤ) : ℝ) /
    deg2rad ((cecumStepDegInt : ℤ) : ℝ)⌉₊ = 9
  rw [hstep, hfov, deg2rad, deg2rad]
  have h : 2 * (135 * Real.pi / 180) / (33 * Real.pi / 180) = 90 / 11 := by
    rw [div_eq_iff (by positivity : (33 : ℝ) * Real.pi / 180 ≠ 0)]
    ring
  rw [h]
  rw [Nat.ceil_eq_iff (by norm_num)]
  constructor <;> norm_num

/-- C1 counterexample: in the cited fixture the step passed to the scanner is
the C++ integer division `270 / 8 = 33` degrees — not `33.75°` — and the
test's expected scan contains eight hits, not seven, out of nine configured
beams. -/
theorem cecum8_claim_counterexample :
    cecumAStep = 33 ∧ cecumAStep ≠ 33.75 ∧
    cecum8ExpectedSPs.length = 8 ∧ cecum8ExpectedSPs.length ≠ 7 ∧
    beamCount cecum8Params = 9 := by
  refine ⟨cecumAStep_eq, ?_, rfl, by simp [cecum8ExpectedSPs],
    cecum8_beamCount⟩
  rw [cecumAStep_eq]
  norm_num

lemma deg2rad_eq_zero_iff {d : ℝ} : deg2rad d = 0 ↔ d = 0 := by
  have h0 : deg2rad 0 = 0 := by
    rw [deg2rad]
    ring
  constructor
  · intro h
    exact deg2rad_inj.mp (h.trans h0.symm)
  · intro h
    rw [h, h0]

lemma deg2rad_add (a b : ℝ) : deg2rad a + deg2rad b = deg2rad (a + b) := by
  simp only [deg2rad]
  ring

/-- The `cecumCenterFacingDown8beams240FoW` pose: the fixture's start
`(0.5, 0.5, 0)` plus the delta `(15, -20, deg2rad(-90))` — the corridor's
center, facing down, toward the open end. -/
noncomputable def cecum8Pose : RobotPose := ⟨31 / 2, -39 / 2, deg2rad (-90)⟩

lemma cecumStepDeg_eq : ((cecumStepDegInt : ℤ) : ℝ) = 33 := by
  norm_num [cecumStepDegInt]

lemma cecumHalfFovDeg_eq : ((cecumHalfFovDegInt : ℤ) : ℝ) = 135 := by
  norm_num [cecumHalfFovDegInt]

lemma cecum8_beam_angle_eq (k : ℕ) (d : ℝ) (hd : -135 + (k : ℝ) * 33 = d) :
    beam_angle cecum8Params k = deg2rad d := by
  show -(deg2rad ((cecumHalfFovDegInt : ℤ) : ℝ)) +
    (k : ℝ) * deg2rad ((cecumStepDegInt : ℤ) : ℝ) = deg2rad d
  rw [cecumStepDeg_eq, cecumHalfFovDeg_eq, ← hd]
  simp only [deg2rad]
  ring

lemma cecum8_phi (k : ℕ) (d : ℝ) (hd : -225 + (k : ℝ) * 33 = d) :
    cecum8Pose.theta + beam_angle cecum8Params k = deg2rad d := by
  rw [show cecum8Pose.theta = deg2rad (-90) from rfl,
    cecum8_beam_angle_eq k (-135 + (k : ℝ) * 33) rfl, deg2rad_add]
  congr 1
  linarith

lemma cos_neg_pi_add (x : ℝ) : Real.cos (-(Real.pi + x)) = -Real.cos x := by
  rw [Real.cos_neg, Real.cos_add, Real.cos_pi, Real.sin_pi]
  ring

lemma sin_neg_pi_add (x : ℝ) : Real.sin (-(Real.pi + x)) = Real.sin x := by
  rw [Real.sin_neg, Real.sin_add, Real.sin_pi, Real.cos_pi]
  ring

lemma cos_neg_pi_sub (x : ℝ) : Real.cos (-(Real.pi - x)) = -Real.cos x := by
  rw [Real.cos_neg, Real.cos_pi_sub]

lemma sin_neg_pi_sub (x : ℝ) : Real.sin (-(Real.pi - x)) = -Real.sin x := by
  rw [Real.sin_neg, Real.sin_pi_sub]

lemma cos_neg_half_pi_add (x : ℝ) :
    Real.cos (-(Real.pi / 2 + x)) = -Real.sin x := by
  rw [Real.cos_neg, Real.cos_add, Real.cos_pi_div_two, Real.sin_pi_div_two]
  ring

lemma sin_neg_half_pi_add (x : ℝ) :
    Real.sin (-(Real.pi / 2 + x)) = -Real.cos x := by
  rw [Real.sin_neg, Real.sin_add, Real.cos_pi_div_two, Real.sin_pi_div_two]
  ring

lemma sqrt_two_div_two_gt : (11 / 21 : ℝ) < Real.sqrt 2 / 2 := by
  have h : (22 / 21 : ℝ) < Real.sqrt 2 := by
    have h2 : ((22 / 21 : ℝ)) ^ 2 < 2 := by norm_num
    nlinarith [Real.sq_sqrt (show (0 : ℝ) ≤ 2 by norm_num),
      Real.sqrt_nonneg 2]
  linarith

lemma sqrt_two_div_two_pos : (0 : ℝ) < Real.sqrt 2 / 2 := by
  have := sqrt_two_div_two_gt
  linarith

lemma sqrt_three_lt : Real.sqrt 3 < 19 / 10 := by
  nlinarith [Real.sq_sqrt (show (0 : ℝ) ≤ 3 by norm_num),
    Real.sqrt_nonneg 3]

lemma sqrt_five_lt : Real.sqrt 5 < 9 / 4 := by
  nlinarith [Real.sq_sqrt (show (0 : ℝ) ≤ 5 by norm_num),
    Real.sqrt_nonneg 5]

/-- Any reference angle strictly inside `[0°, 45°)` has `sin < √2/2 < cos`. -/
lemma sin_lt_sqrt2_lt_cos {x : ℝ} (h0 : 0 ≤ x) (h4 : x < Real.pi / 4) :
    Real.sin x < Real.sqrt 2 / 2 ∧ Real.sqrt 2 / 2 < Real.cos x := by
  have hpi := Real.pi_pos
  constructor
  · have hmono := Real.strictMonoOn_sin
      (show x ∈ Set.Icc (-(Real.pi / 2)) (Real.pi / 2) from
        ⟨by linarith, by linarith⟩)
      (show Real.pi / 4 ∈ Set.Icc (-(Real.pi / 2)) (Real.pi / 2) from
        ⟨by linarith, by linarith⟩) h4
    rw [Real.sin_pi_div_four] at hmono
    exact hmono
  · have hanti := Real.strictAntiOn_cos
      (show x ∈ Set.Icc 0 Real.pi from ⟨h0, by linarith⟩)
      (show Real.pi / 4 ∈ Set.Icc 0 Real.pi from
        ⟨by linarith, by linarith⟩) h4
    rw [Real.cos_pi_div_four] at hanti
    exact hanti

lemma cos_three_pi_div_ten :
    Real.cos (3 * Real.pi / 10) = Real.sin (Real.pi / 5) := by
  rw [show 3 * Real.pi / 10 = Real.pi / 2 - Real.pi / 5 from by ring,
    Real.cos_pi_div_two_sub]

lemma sin_three_pi_div_ten :
    Real.sin (3 * Real.pi / 10) = (1 + Real.sqrt 5) / 4 := by
  rw [show 3 * Real.pi / 10 = Real.pi / 2 - Real.pi / 5 from by ring,
    Real.sin_pi_div_two_sub, Real.cos_pi_div_five]

lemma sin_pi_div_five_sq :
    Real.sin (Real.pi / 5) ^ 2 = (5 - Real.sqrt 5) / 8 := by
  rw [Real.sin_sq, Real.cos_pi_div_five]
  have h5 : Real.sqrt 5 ^ 2 = 5 := Real.sq_sqrt (by norm_num)
  field_simp
  linear_combination (-8 : ℝ) * h5

lemma sin_pi_div_five_gt : (11 / 21 : ℝ) < Real.sin (Real.pi / 5) := by
  have hpi := Real.pi_pos
  have hnn : 0 ≤ Real.sin (Real.pi / 5) :=
    Real.sin_nonneg_of_nonneg_of_le_pi (by positivity) (by linarith)
  have hsq : ((11 / 21 : ℝ)) ^ 2 < Real.sin (Real.pi / 5) ^ 2 := by
    rw [sin_pi_div_five_sq]
    nlinarith [sqrt_five_lt, Real.sqrt_nonneg 5]
  nlinarith

lemma cecum8_hitSet_mem (φ t : ℝ) :
    t ∈ hitSet 1 cecumOccupied cecum8Pose 15 φ ↔
      0 ≤ t ∧ t ≤ 15 ∧
      (0 ≤ ⌊31 / 2 + t * Real.cos φ⌋ ∧ ⌊31 / 2 + t * Real.cos φ⌋ < 30 ∧
        -29 ≤ ⌊-39 / 2 + t * Real.sin φ⌋ ∧ ⌊-39 / 2 + t * Real.sin φ⌋ ≤ 0 ∧
        (⌊31 / 2 + t * Real.cos φ⌋ < 10 ∨ 20 ≤ ⌊31 / 2 + t * Real.cos φ⌋ ∨
          -9 ≤ ⌊-39 / 2 + t * Real.sin φ⌋)) := by
  simp only [hitSet, cecumOccupied, world_to_cell, cecum8Pose,
    Set.mem_setOf_eq, decide_eq_true_eq, div_one]

/-- A beam whose direction points firmly enough leftward strikes the left
wall of the corridor: the recorded range is the wall's perpendicular distance
`11/2` over the direction's leftward cosine. -/
lemma cecum8_beam_left (β : ℝ)
    (hc : Real.cos (cecum8Pose.theta + β) < -(11 / 21))
    (hs : 23 * |Real.sin (cecum8Pose.theta + β)| <
      38 * -Real.cos (cecum8Pose.theta + β)) :
    beam_emission 1 cecumOccupied cecum8Pose 15 β =
      some ⟨11 / 2 / -Real.cos (cecum8Pose.theta + β), β⟩ := by
  set φ := cecum8Pose.theta + β with hφ
  have hcpos : 0 < -Real.cos φ := by linarith
  have habs : |Real.sin φ| ≤ 1 :=
    abs_le.mpr ⟨Real.neg_one_le_sin φ, Real.sin_le_one φ⟩
  have hapos : 0 < 11 / 2 / -Real.cos φ := div_pos (by norm_num) hcpos
  have ha21 : 11 / 2 / -Real.cos φ < 21 / 2 := by
    rw [div_lt_iff hcpos]
    nlinarith
  have htw12 : 23 / 4 / -Real.cos φ < 12 := by
    rw [div_lt_iff hcpos]
    nlinarith
  have haw : 11 / 2 / -Real.cos φ < 23 / 4 / -Real.cos φ := by
    rw [div_lt_div_iff hcpos hcpos]
    nlinarith
  have hmem : ∀ t, 11 / 2 / -Real.cos φ < t → t ≤ 23 / 4 / -Real.cos φ →
      t ∈ hitSet 1 cecumOccupied cecum8Pose 15 φ := by
    intro t hta httw
    have ht0 : 0 ≤ t := le_trans hapos.le hta.le
    have h1 : 11 / 2 < t * -Real.cos φ := (div_lt_iff hcpos).mp hta
    have h2 : t * -Real.cos φ ≤ 23 / 4 := (le_div_iff hcpos).mp httw
    rw [mul_neg] at h1 h2
    have hy : |t * Real.sin φ| < 19 / 2 := by
      rw [abs_mul, abs_of_nonneg ht0]
      calc t * |Real.sin φ| ≤ (23 / 4 / -Real.cos φ) * |Real.sin φ| :=
            mul_le_mul_of_nonneg_right httw (abs_nonneg _)
        _ < 19 / 2 := by
            rw [div_mul_eq_mul_div, div_lt_iff hcpos]
            nlinarith
    have hy' := abs_lt.mp hy
    rw [cecum8_hitSet_mem]
    refine ⟨ht0, by linarith, ?_, ?_, ?_, ?_, Or.inl ?_⟩
    · exact Int.le_floor.mpr (by push_cast; linarith)
    · exact Int.floor_lt.mpr (by push_cast; linarith)
    · exact Int.le_floor.mpr (by push_cast; linarith [hy'.1])
    · have h3 : ⌊(-39 : ℝ) / 2 + t * Real.sin φ⌋ < 1 :=
        Int.floor_lt.mpr (by push_cast; linarith [hy'.2])
      omega
    · exact Int.floor_lt.mpr (by push_cast; linarith)
  have hlb : ∀ t ∈ hitSet 1 cecumOccupied cecum8Pose 15 φ,
      11 / 2 / -Real.cos φ ≤ t := by
    intro t ht
    rw [cecum8_hitSet_mem] at ht
    obtain ⟨ht0, _ht15, _, _, _, _, hdisj⟩ := ht
    rcases hdisj with h | h | h
    · have hx : (31 : ℝ) / 2 + t * Real.cos φ < 10 := by
        exact_mod_cast Int.floor_lt.mp h
      rw [div_le_iff hcpos, mul_neg]
      linarith
    · have hx : (20 : ℝ) ≤ 31 / 2 + t * Real.cos φ := by
        exact_mod_cast Int.le_floor.mp h
      nlinarith [mul_nonneg ht0 hcpos.le]
    · have hyge : (-9 : ℝ) ≤ -39 / 2 + t * Real.sin φ := by
        exact_mod_cast Int.le_floor.mp h
      have h1 : 21 / 2 ≤ t * Real.sin φ := by linarith
      have h2 : t * Real.sin φ ≤ t * |Real.sin φ| :=
        mul_le_mul_of_nonneg_left (le_abs_self _) ht0
      have h3 : t * |Real.sin φ| ≤ t * 1 := mul_le_mul_of_nonneg_left habs ht0
      linarith
  have hne : (hitSet 1 cecumOccupied cecum8Pose 15 φ).Nonempty :=
    ⟨23 / 4 / -Real.cos φ, hmem _ haw le_rfl⟩
  have hinf : hitRange 1 cecumOccupied cecum8Pose 15 φ =
      11 / 2 / -Real.cos φ := by
    rw [hitRange]
    apply le_antisymm
    · have hsub : Set.Ioc (11 / 2 / -Real.cos φ) (23 / 4 / -Real.cos φ) ⊆
          hitSet 1 cecumOccupied cecum8Pose 15 φ :=
        fun t ht => hmem t ht.1 ht.2
      calc sInf (hitSet 1 cecumOccupied cecum8Pose 15 φ)
          ≤ sInf (Set.Ioc (11 / 2 / -Real.cos φ) (23 / 4 / -Real.cos φ)) :=
            csInf_le_csInf ⟨_, fun t ht => hlb t ht⟩
              ⟨23 / 4 / -Real.cos φ, haw, le_rfl⟩ hsub
        _ = 11 / 2 / -Real.cos φ := csInf_Ioc haw
    · exact le_csInf hne hlb
  rw [beam_emission, ← hφ, if_pos hne, hinf]

/-- A beam whose direction points firmly enough rightward strikes the right
wall of the corridor: the recorded range is the wall's perpendicular distance
`9/2` over the direction's cosine. -/
lemma cecum8_beam_right (β : ℝ)
    (hc : 3 / 7 < Real.cos (cecum8Pose.theta + β))
    (hs : 10 * |Real.sin (cecum8Pose.theta + β)| <
      19 * Real.cos (cecum8Pose.theta + β)) :
    beam_emission 1 cecumOccupied cecum8Pose 15 β =
      some ⟨9 / 2 / Real.cos (cecum8Pose.theta + β), β⟩ := by
  set φ := cecum8Pose.theta + β with hφ
  have hcpos : 0 < Real.cos φ := by linarith
  have habs : |Real.sin φ| ≤ 1 :=
    abs_le.mpr ⟨Real.neg_one_le_sin φ, Real.sin_le_one φ⟩
  have hapos : 0 < 9 / 2 / Real.cos φ := div_pos (by norm_num) hcpos
  have ha21 : 9 / 2 / Real.cos φ < 21 / 2 := by
    rw [div_lt_iff hcpos]
    nlinarith
  have htw12 : 5 / Real.cos φ < 12 := by
    rw [div_lt_iff hcpos]
    nlinarith
  have haw : 9 / 2 / Real.cos φ < 5 / Real.cos φ := by
    rw [div_lt_div_iff hcpos hcpos]
    nlinarith
  have hmem : ∀ t, 9 / 2 / Real.cos φ ≤ t → t ≤ 5 / Real.cos φ →
      t ∈ hitSet 1 cecumOccupied cecum8Pose 15 φ := by
    intro t hta httw
    have ht0 : 0 ≤ t := le_trans hapos.le hta
    have h1 : 9 / 2 ≤ t * Real.cos φ := (div_le_iff hcpos).mp hta
    have h2 : t * Real.cos φ ≤ 5 := (le_div_iff hcpos).mp httw
    have hy : |t * Real.sin φ| < 19 / 2 := by
      rw [abs_mul, abs_of_nonneg ht0]
      calc t * |Real.sin φ| ≤ (5 / Real.cos φ) * |Real.sin φ| :=
            mul_le_mul_of_nonneg_right httw (abs_nonneg _)
        _ < 19 / 2 := by
            rw [div_mul_eq_mul_div, div_lt_iff hcpos]
            nlinarith
    have hy' := abs_lt.mp hy
    rw [cecum8_hitSet_mem]
    refine ⟨ht0, by linarith, ?_, ?_, ?_, ?_, Or.inr (Or.inl ?_)⟩
    · exact Int.le_floor.mpr (by push_cast; linarith)
    · exact Int.floor_lt.mpr (by push_cast; linarith)
    · exact Int.le_floor.mpr (by push_cast; linarith [hy'.1])
    · have h3 : ⌊(-39 : ℝ) / 2 + t * Real.sin φ⌋ < 1 :=
        Int.floor_lt.mpr (by push_cast; linarith [hy'.2])
      omega
    · exact Int.le_floor.mpr (by push_cast; linarith)
  have hlb : ∀ t ∈ hitSet 1 cecumOccupied cecum8Pose 15 φ,
      9 / 2 / Real.cos φ ≤ t := by
    intro t ht
    rw [cecum8_hitSet_mem] at ht
    obtain ⟨ht0, _ht15, _, _, _, _, hdisj⟩ := ht
    rcases hdisj with h | h | h
    · have hx : (31 : ℝ) / 2 + t * Real.cos φ < 10 := by
        exact_mod_cast Int.floor_lt.mp h
      nlinarith [mul_nonneg ht0 hcpos.le]
    · have hx : (20 : ℝ) ≤ 31 / 2 + t * Real.cos φ := by
        exact_mod_cast Int.le_floor.mp h
      rw [div_le_iff hcpos]
      linarith
    · have hyge : (-9 : ℝ) ≤ -39 / 2 + t * Real.sin φ := by
        exact_mod_cast Int.le_floor.mp h
      have h1 : 21 / 2 ≤ t * Real.sin φ := by linarith
      have h2 : t * Real.sin φ ≤ t * |Real.sin φ| :=
        mul_le_mul_of_nonneg_left (le_abs_self _) ht0
      have h3 : t * |Real.sin φ| ≤ t * 1 := mul_le_mul_of_nonneg_left habs ht0
      linarith
  have hamem : 9 / 2 / Real.cos φ ∈ hitSet 1 cecumOccupied cecum8Pose 15 φ :=
    hmem _ le_rfl haw.le
  have hinf : hitRange 1 cecumOccupied cecum8Pose 15 φ =
      9 / 2 / Real.cos φ := by
    rw [hitRange]
    exact le_antisymm (csInf_le ⟨_, fun t ht => hlb t ht⟩ hamem)
      (le_csInf ⟨_, hamem⟩ hlb)
  rw [beam_emission, ← hφ, if_pos ⟨_, hamem⟩, hinf]

/-- A beam pointing down and at most slightly sideways leaves through the
corridor's open end without meeting a wall within `max_range = 15`. -/
lemma cecum8_beam_miss (β : ℝ)
    (hc : Real.cos (cecum8Pose.theta + β) ≤ 0)
    (hcm : -Real.cos (cecum8Pose.theta + β) < 11 / 30)
    (hs : Real.sin (cecum8Pose.theta + β) ≤ 0) :
    beam_emission 1 cecumOccupied cecum8Pose 15 β = none := by
  apply beam_emission_of_miss
  rw [Set.eq_empty_iff_forall_not_mem]
  intro t ht
  rw [cecum8_hitSet_mem] at ht
  obtain ⟨ht0, ht15, _, _, _, _, hdisj⟩ := ht
  set φ := cecum8Pose.theta + β with hφ
  rcases hdisj with h | h | h
  · have hx : (31 : ℝ) / 2 + t * Real.cos φ < 10 := by
      exact_mod_cast Int.floor_lt.mp h
    nlinarith [mul_le_mul_of_nonneg_left hcm.le ht0,
      mul_nonneg ht0 (neg_nonneg.mpr hc)]
  · have hx : (20 : ℝ) ≤ 31 / 2 + t * Real.cos φ := by
      exact_mod_cast Int.le_floor.mp h
    nlinarith [mul_nonneg ht0 (neg_nonneg.mpr hc)]
  · have hy : (-9 : ℝ) ≤ -39 / 2 + t * Real.sin φ := by
      exact_mod_cast Int.le_floor.mp h
    nlinarith [mul_nonpos_of_nonneg_of_nonpos ht0 hs]

lemma deg2rad_neg225 : deg2rad (-225) = -(Real.pi + Real.pi / 4) := by
  rw [deg2rad]
  ring

lemma deg2rad_neg192 : deg2rad (-192) = -(Real.pi + Real.pi / 15) := by
  rw [deg2rad]
  ring

lemma deg2rad_neg159 : deg2rad (-159) = -(Real.pi - 7 * Real.pi / 60) := by
  rw [deg2rad]
  ring

lemma deg2rad_neg126 : deg2rad (-126) = -(Real.pi - 3 * Real.pi / 10) := by
  rw [deg2rad]
  ring

lemma deg2rad_neg93 : deg2rad (-93) = -(Real.pi / 2 + Real.pi / 60) := by
  rw [deg2rad]
  ring

lemma deg2rad_neg60 : deg2rad (-60) = -(Real.pi / 3) := by
  rw [deg2rad]
  ring

lemma deg2rad_neg27 : deg2rad (-27) = -(3 * Real.pi / 20) := by
  rw [deg2rad]
  ring

lemma deg2rad_six : deg2rad 6 = Real.pi / 30 := by
  rw [deg2rad]
  ring

lemma deg2rad_39 : deg2rad 39 = 13 * Real.pi / 60 := by
  rw [deg2rad]
  ring

lemma cos_deg225 : Real.cos (deg2rad (-225)) = -(Real.sqrt 2 / 2) := by
  rw [deg2rad_neg225, cos_neg_pi_add, Real.cos_pi_div_four]

lemma sin_deg225 : Real.sin (deg2rad (-225)) = Real.sqrt 2 / 2 := by
  rw [deg2rad_neg225, sin_neg_pi_add, Real.sin_pi_div_four]

lemma cos_deg192 : Real.cos (deg2rad (-192)) = -Real.cos (Real.pi / 15) := by
  rw [deg2rad_neg192, cos_neg_pi_add]

lemma sin_deg192 : Real.sin (deg2rad (-192)) = Real.sin (Real.pi / 15) := by
  rw [deg2rad_neg192, sin_neg_pi_add]

lemma cos_deg159 :
    Real.cos (deg2rad (-159)) = -Real.cos (7 * Real.pi / 60) := by
  rw [deg2rad_neg159, cos_neg_pi_sub]

lemma sin_deg159 :
    Real.sin (deg2rad (-159)) = -Real.sin (7 * Real.pi / 60) := by
  rw [deg2rad_neg159, sin_neg_pi_sub]

lemma cos_deg126 : Real.cos (deg2rad (-126)) = -Real.sin (Real.pi / 5) := by
  rw [deg2rad_neg126, cos_neg_pi_sub, cos_three_pi_div_ten]

lemma sin_deg126 :
    Real.sin (deg2rad (-126)) = -((1 + Real.sqrt 5) / 4) := by
  rw [deg2rad_neg126, sin_neg_pi_sub, sin_three_pi_div_ten]

lemma cos_deg93 : Real.cos (deg2rad (-93)) = -Real.sin (Real.pi / 60) := by
  rw [deg2rad_neg93, cos_neg_half_pi_add]

lemma sin_deg93 : Real.sin (deg2rad (-93)) = -Real.cos (Real.pi / 60) := by
  rw [deg2rad_neg93, sin_neg_half_pi_add]

lemma cos_deg60 : Real.cos (deg2rad (-60)) = 1 / 2 := by
  rw [deg2rad_neg60, Real.cos_neg, Real.cos_pi_div_three]

lemma sin_deg60 : Real.sin (deg2rad (-60)) = -(Real.sqrt 3 / 2) := by
  rw [deg2rad_neg60, Real.sin_neg, Real.sin_pi_div_three]

lemma cos_deg27 : Real.cos (deg2rad (-27)) = Real.cos (3 * Real.pi / 20) := by
  rw [deg2rad_neg27, Real.cos_neg]

lemma sin_deg27 :
    Real.sin (deg2rad (-27)) = -Real.sin (3 * Real.pi / 20) := by
  rw [deg2rad_neg27, Real.sin_neg]

lemma cecum8_hf0 :
    beam_emission 1 cecumOccupied cecum8Pose cecum8Params.max_range
      (beam_angle cecum8Params 0) =
      some ⟨11 / 2 / -Real.cos (deg2rad (-225)), deg2rad (-135)⟩ := by
  have hphi : cecum8Pose.theta + beam_angle cecum8Params 0 = deg2rad (-225) :=
    cecum8_phi 0 (-225) (by norm_num)
  rw [← cecum8_beam_angle_eq 0 (-135) (by norm_num), ← hphi]
  apply cecum8_beam_left
  · rw [hphi, cos_deg225]
    linarith [sqrt_two_div_two_gt]
  · rw [hphi, cos_deg225, sin_deg225, neg_neg,
      abs_of_pos sqrt_two_div_two_pos]
    linarith [sqrt_two_div_two_pos]

lemma cecum8_hf1 :
    beam_emission 1 cecumOccupied cecum8Pose cecum8Params.max_range
      (beam_angle cecum8Params 1) =
      some ⟨11 / 2 / -Real.cos (deg2rad (-192)), deg2rad (-102)⟩ := by
  have hphi : cecum8Pose.theta + beam_angle cecum8Params 1 = deg2rad (-192) :=
    cecum8_phi 1 (-192) (by norm_num)
  have hpi := Real.pi_pos
  have hb := sin_lt_sqrt2_lt_cos (x := Real.pi / 15) (by positivity)
    (by linarith)
  have hsn : 0 ≤ Real.sin (Real.pi / 15) :=
    Real.sin_nonneg_of_nonneg_of_le_pi (by positivity) (by linarith)
  rw [← cecum8_beam_angle_eq 1 (-102) (by norm_num), ← hphi]
  apply cecum8_beam_left
  · rw [hphi, cos_deg192]
    linarith [hb.2, sqrt_two_div_two_gt]
  · rw [hphi, cos_deg192, sin_deg192, neg_neg, abs_of_nonneg hsn]
    linarith [hb.1, hb.2, sqrt_two_div_two_pos]

lemma cecum8_hf2 :
    beam_emission 1 cecumOccupied cecum8Pose cecum8Params.max_range
      (beam_angle cecum8Params 2) =
      some ⟨11 / 2 / -Real.cos (deg2rad (-159)), deg2rad (-69)⟩ := by
  have hphi : cecum8Pose.theta + beam_angle cecum8Params 2 = deg2rad (-159) :=
    cecum8_phi 2 (-159) (by norm_num)
  have hpi := Real.pi_pos
  have hb := sin_lt_sqrt2_lt_cos (x := 7 * Real.pi / 60) (by positivity)
    (by linarith)
  have hsn : 0 ≤ Real.sin (7 * Real.pi / 60) :=
    Real.sin_nonneg_of_nonneg_of_le_pi (by positivity) (by linarith)
  rw [← cecum8_beam_angle_eq 2 (-69) (by norm_num), ← hphi]
  apply cecum8_beam_left
  · rw [hphi, cos_deg159]
    linarith [hb.2, sqrt_two_div_two_gt]
  · rw [hphi, cos_deg159, sin_deg159, neg_neg, abs_neg, abs_of_nonneg hsn]
    linarith [hb.1, hb.2, sqrt_two_div_two_pos]

lemma cecum8_hf3 :
    beam_emission 1 cecumOccupied cecum8Pose cecum8Params.max_range
      (beam_angle cecum8Params 3) =
      some ⟨11 / 2 / -Real.cos (deg2rad (-126)), deg2rad (-36)⟩ := by
  have hphi : cecum8Pose.theta + beam_angle cecum8Params 3 = deg2rad (-126) :=
    cecum8_phi 3 (-126) (by norm_num)
  rw [← cecum8_beam_angle_eq 3 (-36) (by norm_num), ← hphi]
  apply cecum8_beam_left
  · rw [hphi, cos_deg126]
    linarith [sin_pi_div_five_gt]
  · rw [hphi, cos_deg126, sin_deg126, neg_neg, abs_neg,
      abs_of_nonneg (show (0 : ℝ) ≤ (1 + Real.sqrt 5) / 4 by positivity)]
    linarith [sqrt_five_lt, sin_pi_div_five_gt]

lemma cecum8_hf4 :
    beam_emission 1 cecumOccupied cecum8Pose cecum8Params.max_range
      (beam_angle cecum8Params 4) = none := by
  have hphi : cecum8Pose.theta + beam_angle cecum8Params 4 = deg2rad (-93) :=
    cecum8_phi 4 (-93) (by norm_num)
  have hpi := Real.pi_pos
  have hsn : 0 ≤ Real.sin (Real.pi / 60) :=
    Real.sin_nonneg_of_nonneg_of_le_pi (by positivity) (by linarith)
  have hcn : 0 ≤ Real.cos (Real.pi / 60) :=
    Real.cos_nonneg_of_mem_Icc ⟨by linarith, by linarith⟩
  have hslt : Real.sin (Real.pi / 60) < 11 / 30 := by
    have h1 : Real.sin (Real.pi / 60) < Real.pi / 60 :=
      Real.sin_lt (by positivity)
    have h2 := Real.pi_lt_315
    linarith
  apply cecum8_beam_miss
  · rw [hphi, cos_deg93]
    linarith
  · rw [hphi, cos_deg93, neg_neg]
    exact hslt
  · rw [hphi, sin_deg93]
    linarith

lemma cecum8_hf5 :
    beam_emission 1 cecumOccupied cecum8Pose cecum8Params.max_range
      (beam_angle cecum8Params 5) =
      some ⟨9 / 2 / Real.cos (deg2rad (-60)), deg2rad 30⟩ := by
  have hphi : cecum8Pose.theta + beam_angle cecum8Params 5 = deg2rad (-60) :=
    cecum8_phi 5 (-60) (by norm_num)
  rw [← cecum8_beam_angle_eq 5 30 (by norm_num), ← hphi]
  apply cecum8_beam_right
  · rw [hphi, cos_deg60]
    norm_num
  · rw [hphi, cos_deg60, sin_deg60, abs_neg,
      abs_of_nonneg (show (0 : ℝ) ≤ Real.sqrt 3 / 2 by positivity)]
    linarith [sqrt_three_lt]

lemma cecum8_hf6 :
    beam_emission 1 cecumOccupied cecum8Pose cecum8Params.max_range
      (beam_angle cecum8Params 6) =
      some ⟨9 / 2 / Real.cos (deg2rad (-27)), deg2rad 63⟩ := by
  have hphi : cecum8Pose.theta + beam_angle cecum8Params 6 = deg2rad (-27) :=
    cecum8_phi 6 (-27) (by norm_num)
  have hpi := Real.pi_pos
  have hb := sin_lt_sqrt2_lt_cos (x := 3 * Real.pi / 20) (by positivity)
    (by linarith)
  have hsn : 0 ≤ Real.sin (3 * Real.pi / 20) :=
    Real.sin_nonneg_of_nonneg_of_le_pi (by positivity) (by linarith)
  rw [← cecum8_beam_angle_eq 6 63 (by norm_num), ← hphi]
  apply cecum8_beam_right
  · rw [hphi, cos_deg27]
    linarith [hb.2, sqrt_two_div_two_gt]
  · rw [hphi, cos_deg27, sin_deg27, abs_neg, abs_of_nonneg hsn]
    linarith [hb.1, hb.2, sqrt_two_div_two_pos]

lemma cecum8_hf7 :
    beam_emission 1 cecumOccupied cecum8Pose cecum8Params.max_range
      (beam_angle cecum8Params 7) =
      some ⟨9 / 2 / Real.cos (deg2rad 6), deg2rad 96⟩ := by
  have hphi : cecum8Pose.theta + beam_angle cecum8Params 7 = deg2rad 6 :=
    cecum8_phi 7 6 (by norm_num)
  have hpi := Real.pi_pos
  have hb := sin_lt_sqrt2_lt_cos (x := Real.pi / 30) (by positivity)
    (by linarith)
  have hsn : 0 ≤ Real.sin (Real.pi / 30) :=
    Real.sin_nonneg_of_nonneg_of_le_pi (by positivity) (by linarith)
  rw [← cecum8_beam_angle_eq 7 96 (by norm_num), ← hphi]
  apply cecum8_beam_right
  · rw [hphi, deg2rad_six]
    linarith [hb.2, sqrt_two_div_two_gt]
  · rw [hphi, deg2rad_six, abs_of_nonneg hsn]
    linarith [hb.1, hb.2, sqrt_two_div_two_pos]

lemma cecum8_hf8 :
    beam_emission 1 cecumOccupied cecum8Pose cecum8Params.max_range
      (beam_angle cecum8Params 8) =
      some ⟨9 / 2 / Real.cos (deg2rad 39), deg2rad 129⟩ := by
  have hphi : cecum8Pose.theta + beam_angle cecum8Params 8 = deg2rad 39 :=
    cecum8_phi 8 39 (by norm_num)
  have hpi := Real.pi_pos
  have hb := sin_lt_sqrt2_lt_cos (x := 13 * Real.pi / 60) (by positivity)
    (by linarith)
  have hsn : 0 ≤ Real.sin (13 * Real.pi / 60) :=
    Real.sin_nonneg_of_nonneg_of_le_pi (by positivity) (by linarith)
  rw [← cecum8_beam_angle_eq 8 129 (by norm_num), ← hphi]
  apply cecum8_beam_right
  · rw [hphi, deg2rad_39]
    linarith [hb.2, sqrt_two_div_two_gt]
  · rw [hphi, deg2rad_39, abs_of_nonneg hsn]
    linarith [hb.1, hb.2, sqrt_two_div_two_pos]

lemma cecum8_theta_add (b d : ℝ) (h : -90 + b = d) :
    cecum8Pose.theta + deg2rad b = deg2rad d := by
  rw [show cecum8Pose.theta = deg2rad (-90) from rfl, deg2rad_add, h]

lemma div_neg_mul_abs (d c : ℝ) (hc : c < 0) : d / -c * |c| = d := by
  rw [abs_of_neg hc]
  exact div_mul_cancel₀ _ (by linarith)

lemma div_pos_mul_abs (d c : ℝ) (hc : 0 < c) : d / c * |c| = d := by
  rw [abs_of_pos hc]
  exact div_mul_cancel₀ _ (ne_of_gt hc)

/-- The full modelled scan at the 8-beam fixture's pose: the 9 configured
beams yield 8 points — four left-wall hits, a miss at the -3° beam, four
right-wall hits. -/
lemma cecum8_scan_eq :
    generate_2D_laser_scan 1 cecumOccupied cecum8Pose cecum8Params =
      [⟨11 / 2 / -Real.cos (deg2rad (-225)), deg2rad (-135)⟩,
       ⟨11 / 2 / -Real.cos (deg2rad (-192)), deg2rad (-102)⟩,
       ⟨11 / 2 / -Real.cos (deg2rad (-159)), deg2rad (-69)⟩,
       ⟨11 / 2 / -Real.cos (deg2rad (-126)), deg2rad (-36)⟩,
       ⟨9 / 2 / Real.cos (deg2rad (-60)), deg2rad 30⟩,
       ⟨9 / 2 / Real.cos (deg2rad (-27)), deg2rad 63⟩,
       ⟨9 / 2 / Real.cos (deg2rad 6), deg2rad 96⟩,
       ⟨9 / 2 / Real.cos (deg2rad 39), deg2rad 129⟩] := by
  rw [generate_2D_laser_scan, cecum8_beamCount,
    show List.range 9 = [0, 1, 2, 3, 4, 5, 6, 7, 8] from rfl]
  simp only [List.filterMap_cons, List.filterMap_nil,
    cecum8_hf0, cecum8_hf1, cecum8_hf2, cecum8_hf3, cecum8_hf4,
    cecum8_hf5, cecum8_hf6, cecum8_hf7, cecum8_hf8]

/-- C1: For the 3×3 cecum corridor patch scaled ×10 into a 100×100 map at
scale 1, the 8-beam fixture's scanner has step `deg2rad (270 / 8)` = 33° by
C++ integer division (not 33.75°), hence 9 configured beams over its 270°
field of view; at the corridor's center facing down, the modelled
`generate_2D_laser_scan` returns exactly 8 scan points, no configured beam —
in particular no returned point — lies at 0° relative heading, and every
returned range times |cos| of its beam's incidence to the vertical equals the
exact perpendicular distance to the struck side wall: 11/2 for the four
left-wall hits, 9/2 for the four right-wall hits. -/
theorem cecum8_scan_spec :
    cecum8Params.angle_step = deg2rad 33 ∧
    beamCount cecum8Params = 9 ∧
    (generate_2D_laser_scan 1 cecumOccupied cecum8Pose cecum8Params).length
      = 8 ∧
    (∀ k, k < beamCount cecum8Params → beam_angle cecum8Params k ≠ 0) ∧
    (∀ sp ∈ generate_2D_laser_scan 1 cecumOccupied cecum8Pose cecum8Params,
      sp.angle ≠ 0) ∧
    List.Forall₂ (fun (sp : ScanPoint) (w : ℝ) =>
        sp.range * |Real.cos (cecum8Pose.theta + sp.angle)| = w)
      (generate_2D_laser_scan 1 cecumOccupied cecum8Pose cecum8Params)
      [11 / 2, 11 / 2, 11 / 2, 11 / 2, 9 / 2, 9 / 2, 9 / 2, 9 / 2] := by
  have hpi := Real.pi_pos
  refine ⟨?_, cecum8_beamCount, ?_, ?_, ?_, ?_⟩
  · show deg2rad ((cecumStepDegInt : ℤ) : ℝ) = deg2rad 33
    rw [cecumStepDeg_eq]
  · rw [cecum8_scan_eq, List.length_cons, List.length_cons, List.length_cons,
      List.length_cons, List.length_cons, List.length_cons, List.length_cons,
      List.length_cons, List.length_nil]
  · intro k hk h0
    rw [cecum8_beam_angle_eq k (-135 + (k : ℝ) * 33) rfl,
      deg2rad_eq_zero_iff] at h0
    have h1 : (k : ℝ) * 33 = 135 := by linarith
    have h2 : k * 33 = 135 := by exact_mod_cast h1
    omega
  · intro sp hsp
    rw [cecum8_scan_eq] at hsp
    simp only [List.mem_cons, List.not_mem_nil, or_false] at hsp
    rcases hsp with rfl | rfl | rfl | rfl | rfl | rfl | rfl | rfl <;>
      norm_num [deg2rad_eq_zero_iff]
  · rw [cecum8_scan_eq]
    refine List.Forall₂.cons ?_ (List.Forall₂.cons ?_ (List.Forall₂.cons ?_
      (List.Forall₂.cons ?_ (List.Forall₂.cons ?_ (List.Forall₂.cons ?_
      (List.Forall₂.cons ?_ (List.Forall₂.cons ?_ List.Forall₂.nil)))))))
    · show 11 / 2 / -Real.cos (deg2rad (-225)) *
        |Real.cos (cecum8Pose.theta + deg2rad (-135))| = (11 / 2 : ℝ)
      rw [cecum8_theta_add (-135) (-225) (by norm_num), cos_deg225]
      exact div_neg_mul_abs _ _ (by linarith [sqrt_two_div_two_pos])
    · show 11 / 2 / -Real.cos (deg2rad (-192)) *
        |Real.cos (cecum8Pose.theta + deg2rad (-102))| = (11 / 2 : ℝ)
      rw [cecum8_theta_add (-102) (-192) (by norm_num), cos_deg192]
      have hc : 0 < Real.cos (Real.pi / 15) :=
        Real.cos_pos_of_mem_Ioo ⟨by linarith, by linarith⟩
      exact div_neg_mul_abs _ _ (by linarith)
    · show 11 / 2 / -Real.cos (deg2rad (-159)) *
        |Real.cos (cecum8Pose.theta + deg2rad (-69))| = (11 / 2 : ℝ)
      rw [cecum8_theta_add (-69) (-159) (by norm_num), cos_deg159]
      have hc : 0 < Real.cos (7 * Real.pi / 60) :=
        Real.cos_pos_of_mem_Ioo ⟨by linarith, by linarith⟩
      exact div_neg_mul_abs _ _ (by linarith)
    · show 11 / 2 / -Real.cos (deg2rad (-126)) *
        |Real.cos (cecum8Pose.theta + deg2rad (-36))| = (11 / 2 : ℝ)
      rw [cecum8_theta_add (-36) (-126) (by norm_num), cos_deg126]
      have hc : 0 < Real.sin (Real.pi / 5) :=
        Real.sin_pos_of_pos_of_lt_pi (by positivity) (by linarith)
      exact div_neg_mul_abs _ _ (by linarith)
    · show 9 / 2 / Real.cos (deg2rad (-60)) *
        |Real.cos (cecum8Pose.theta + deg2rad 30)| = (9 / 2 : ℝ)
      rw [cecum8_theta_add 30 (-60) (by norm_num), cos_deg60]
      exact div_pos_mul_abs _ _ (by norm_num)
    · show 9 / 2 / Real.cos (deg2rad (-27)) *
        |Real.cos (cecum8Pose.theta + deg2rad 63)| = (9 / 2 : ℝ)
      rw [cecum8_theta_add 63 (-27) (by norm_num), cos_deg27]
      exact div_pos_mul_abs _ _
        (Real.cos_pos_of_mem_Ioo ⟨by linarith, by linarith⟩)
    · show 9 / 2 / Real.cos (deg2rad 6) *
        |Real.cos (cecum8Pose.theta + deg2rad 96)| = (9 / 2 : ℝ)
      rw [cecum8_theta_add 96 6 (by norm_num), deg2rad_six]
      exact div_pos_mul_abs _ _
        (Real.cos_pos_of_mem_Ioo ⟨by linarith, by linarith⟩)
    · show 9 / 2 / Real.cos (deg2rad 39) *
        |Real.cos (cecum8Pose.theta + deg2rad 129)| = (9 / 2 : ℝ)
      rw [cecum8_theta_add 129 39 (by norm_num), deg2rad_39]
      exact div_pos_mul_abs _ _
        (Real.cos_pos_of_mem_Ioo ⟨by linarith, by linarith⟩)
